import Mathlib

/-!
Verification development for the GraphQL SDL schema printer
(`graphql/utils/schema_printer.py`).

The printer is a pure text-producing transformation over an immutable
schema model.  We embed it shallowly:

* Python strings become `String` (with the core wrapping/splitting
  algorithms stated over `List Char`);
* the schema model (types, fields, arguments, directives) becomes
  read-only structures mirroring exactly the attributes the printer reads;
* the two external collaborators — the literal-text rendering service
  (`print_ast(ast_from_value(...))`) and the shared default-deprecation
  reason sentinel (`DEFAULT_DEPRECATION_REASON`), both defined outside the
  printer module — are passed as explicit parameters (`litText`,
  `defaultReason`); default values of arguments are stored already rendered
  by that external service, absence distinguished from presence by `Option`.

Machine-checked statements about the printer follow the definitions.
-/

namespace SchemaPrinter

/-! ### The line-break model

`_break_lines` delegates to CPython's `re.split` on the pattern
`((?: |^).{15,M}(?= |$))` where `M = max_len - 40`.  The regex engine is
external to the repository, so its behaviour on this fixed pattern is
modelled explicitly, for newline-free input (the only input the printer
ever feeds it, since `_description_lines` splits on newlines first):

* a match starts either with a consumed space character or, at position 0
  only, with nothing (alternation `(?: |^)`, tried in that order);
* then `.{15,M}` greedily consumes between `15` and `M` characters,
  backtracking from the longest;
* the lookahead `(?= |$)` requires the next position to hold a space or be
  the end of the input;
* `re.split` scans for leftmost non-overlapping matches and returns the
  gaps interleaved with the captured substrings.
-/

/-- Slice of a character list: the characters at positions `[a, b)`. -/
def sliceL (cs : List Char) (a b : Nat) : List Char :=
  (cs.drop a).take (b - a)

/-- Lookahead `(?= |$)`: position `i` is the end of input or holds a space. -/
def boundary (cs : List Char) (i : Nat) : Bool :=
  match cs.get? i with
  | none => true
  | some c => c == ' '

/-- Greedy `.{15,k}(?= |$)` starting at `start`: try `k` characters first,
then back off to `15`; return the end position of the consumed block. -/
def findK (cs : List Char) (start : Nat) : Nat → Option Nat
  | 0 => none
  | k + 1 =>
    if k + 1 < 15 then none
    else if boundary cs (start + (k + 1)) then some (start + (k + 1))
    else findK cs start k

/-- One match attempt of `(?: |^).{15,m}(?= |$)` at position `i`: the space
branch is tried first (consuming the space at `i`), the `^` branch only at
position 0.  Returns the end position of the match. -/
def matchAt (cs : List Char) (m i : Nat) : Option Nat :=
  match (if cs.get? i == some ' ' then
           findK cs (i + 1) (min m (cs.length - (i + 1)))
         else none) with
  | some e => some e
  | none => if i = 0 then findK cs 0 (min m cs.length) else none

/-- Leftmost non-overlapping scan of the whole input, collecting the
`(start, end)` spans of every match; `fuel` bounds the number of steps. -/
def scanAux (cs : List Char) (m : Nat) : Nat → Nat → List (Nat × Nat)
  | 0, _ => []
  | fuel + 1, i =>
    if cs.length < i then []
    else
      match matchAt cs m i with
      | some e => (i, e) :: scanAux cs m fuel e
      | none => scanAux cs m fuel (i + 1)

/-- All matches of the split pattern over the input. -/
def splitMatches (cs : List Char) (m : Nat) : List (Nat × Nat) :=
  scanAux cs m (cs.length + 2) 0

/-- The parts `re.split` builds from the matches: the gap before each
match, the captured match itself, and finally the gap after the last
match. -/
def partsOfMatches (cs : List Char) : Nat → List (Nat × Nat) → List (List Char)
  | pos, [] => [sliceL cs pos cs.length]
  | pos, (s, e) :: rest => sliceL cs pos s :: sliceL cs s e :: partsOfMatches cs e rest

/-- `re.split(r"((?: |^).{15,m}(?= |$))", line)` for a newline-free line. -/
def splitParts (cs : List Char) (m : Nat) : List (List Char) :=
  partsOfMatches cs 0 (splitMatches cs m)

/-- The Python loop `for idx in range(3, len(parts), 2):
sublines.append(parts[idx][1:] + parts[idx + 1])`. -/
def sublinesLoop (parts : List (List Char)) (idx : Nat) : List (List Char) :=
  if idx < parts.length then
    ((parts.getD idx []).drop 1 ++ parts.getD (idx + 1) []) :: sublinesLoop parts (idx + 2)
  else []
termination_by parts.length - idx

/-- The subsequent sublines as the specification describes them: each
formed from the next consecutive pair of parts, with the pair's leading
separator character stripped. -/
def pairSublines : List (List Char) → List (List Char)
  | a :: b :: t => (a.drop 1 ++ b) :: pairSublines t
  | _ => []

/-- Well-formedness of a match list: starting at or after `lo`, each span
is non-empty, ends within the input, and spans are consecutive and
non-overlapping. -/
def ChainWF (cs : List Char) : Nat → List (Nat × Nat) → Prop
  | _, [] => True
  | lo, (s, e) :: rest => lo ≤ s ∧ s < e ∧ e ≤ cs.length ∧ ChainWF cs e rest

/-- Character-level body of `_break_lines`. -/
def breakLinesL (cs : List Char) (max_len : Nat) : List (List Char) :=
  if cs.length < max_len + 5 then [cs]
  else
    let parts := splitParts cs (max_len - 40)
    if parts.length < 4 then [cs]
    else (parts.getD 0 [] ++ parts.getD 1 [] ++ parts.getD 2 []) :: sublinesLoop parts 3

/-- Source `_break_lines(line, max_len)`: return the line unwrapped when it
is short enough or no usable breakpoint is found, otherwise the first three
split parts concatenated followed by consecutive pairs of the remaining
parts with their leading separator character stripped. -/
def _break_lines (line : String) (max_len : Nat) : List String :=
  (breakLinesL line.data max_len).map String.mk

/-! ### Escaping and description lines -/

/-- Character-level body of `_escape_quote`: Python
`line.replace('"""', '\\"""')` — scan left to right, replace each leftmost
non-overlapping occurrence of the three quote characters and continue after
it, copy every other character. -/
def escapeQuoteL (cs : List Char) : List Char :=
  match cs with
  | [] => []
  | c1 :: rest =>
    match rest with
    | c2 :: c3 :: rest2 =>
      if c1 = '"' ∧ c2 = '"' ∧ c3 = '"' then
        '\\' :: '"' :: '"' :: '"' :: escapeQuoteL rest2
      else c1 :: escapeQuoteL (c2 :: c3 :: rest2)
    | [] => [c1]
    | [c2] => [c1, c2]

/-- The maximal triple-quote-free chunks of a character list: splitting on
each leftmost non-overlapping occurrence of `"""` (the decomposition
`str.split('"""')` that characterizes `str.replace`). -/
def splitOnTriple (cs : List Char) : List (List Char) :=
  match cs with
  | [] => [[]]
  | c1 :: rest =>
    match rest with
    | c2 :: c3 :: rest2 =>
      if c1 = '"' ∧ c2 = '"' ∧ c3 = '"' then [] :: splitOnTriple rest2
      else
        match splitOnTriple (c2 :: c3 :: rest2) with
        | ch :: chs => (c1 :: ch) :: chs
        | [] => [[c1]]
    | [] => [[c1]]
    | [c2] => [[c1, c2]]

/-- Whether the three-character sequence `"""` occurs anywhere. -/
def containsTriple (cs : List Char) : Bool :=
  match cs with
  | [] => false
  | c1 :: rest =>
    match rest with
    | c2 :: c3 :: _ =>
      if c1 = '"' ∧ c2 = '"' ∧ c3 = '"' then true else containsTriple rest
    | _ => false

/-- Join chunks with a separator between consecutive chunks. -/
def joinSep (sep : List Char) : List (List Char) → List Char
  | [] => []
  | [a] => a
  | a :: b :: t => a ++ sep ++ joinSep sep (b :: t)

/-- Source `_escape_quote(line)`. -/
def _escape_quote (line : String) : String :=
  String.mk (escapeQuoteL line.data)

/-- Source `MAX_DESC_LEN`. -/
def MAX_DESC_LEN : Nat := 120

/-- Python `description.split("\n")` at the character level: split on every
newline, keeping empty pieces (and producing one empty piece for the empty
string). -/
def splitNewlines (cs : List Char) : List (List Char) :=
  match cs with
  | [] => [[]]
  | c :: rest =>
    match splitNewlines rest with
    | l :: ls => if c = '\n' then [] :: l :: ls else (c :: l) :: ls
    | [] => [[c]]

/-- Source `_description_lines(description, max_len)`: split on explicit
line breaks, keep empty lines, word-wrap every non-empty line.  (The
legacy branch accepting a callable description is outside the model; the
printer only ever receives strings here.) -/
def _description_lines (description : String) (max_len : Nat) : List String :=
  ((splitNewlines description.data).map String.mk).foldl
    (fun lines line =>
      if line = "" then lines ++ [line] else lines ++ _break_lines line max_len)
    []

/-- Python truthiness test `not definition.description` (absent or empty). -/
def isEmptyDesc : Option String → Bool
  | none => true
  | some s => s == ""

/-- Source `_print_description(definition, indentation, first_in_block)`,
taking the description text itself (the only attribute read). -/
def _print_description (description : Option String) (indentation : String)
    (first_in_block : Bool) : String :=
  if isEmptyDesc description then ""
  else
    let desc := description.getD ""
    let lines := _description_lines desc (MAX_DESC_LEN - indentation.length)
    let opening :=
      if indentation ≠ "" ∧ first_in_block = false then "\n" ++ indentation ++ "\"\"\""
      else indentation ++ "\"\"\""
    let l0 := lines.headD ""
    if lines.length = 1 ∧ l0.length < 70 ∧ 0 < l0.length ∧ l0.back ≠ '"' then
      opening ++ _escape_quote l0 ++ "\"\"\"\n"
    else
      let has_leading_space : Bool := l0.length == 0 || l0.front == ' ' || l0.front == '\t'
      let opening2 := if has_leading_space then opening else opening ++ "\n"
      opening2 ++ String.join (lines.map _escape_quote) ++ indentation ++ "\"\"\"\n"

/-! ### The schema model

Read-only structures exposing exactly the attributes the printer reads.
Printable type references (`f.type`, `arg.type`, union members, interface
names, root-type names) are stored as their rendered `str(...)` form;
argument default values are stored already rendered by the external
literal-text service, `none` meaning no default (`default_value is None`).
-/

structure GraphQLArgument where
  type : String
  description : Option String
  default_value : Option String
deriving Repr, DecidableEq

structure GraphQLField where
  type : String
  args : List (String × GraphQLArgument)
  description : Option String
  deprecation_reason : Option String
deriving Repr, DecidableEq

structure GraphQLEnumValue where
  name : String
  description : Option String
  deprecation_reason : Option String
deriving Repr, DecidableEq

structure GraphQLScalarType where
  name : String
  description : Option String
deriving Repr, DecidableEq

structure GraphQLObjectType where
  name : String
  description : Option String
  interfaces : List String
  fields : List (String × GraphQLField)
deriving Repr, DecidableEq

structure GraphQLInterfaceType where
  name : String
  description : Option String
  fields : List (String × GraphQLField)
deriving Repr, DecidableEq

structure GraphQLUnionType where
  name : String
  description : Option String
  types : List String
deriving Repr, DecidableEq

structure GraphQLEnumType where
  name : String
  description : Option String
  values : List GraphQLEnumValue
deriving Repr, DecidableEq

structure GraphQLInputObjectType where
  name : String
  description : Option String
  fields : List (String × GraphQLArgument)
deriving Repr, DecidableEq

/-- The closed variant of schema types the printer dispatches over. -/
inductive GraphQLType where
  | scalar (t : GraphQLScalarType)
  | object (t : GraphQLObjectType)
  | interface (t : GraphQLInterfaceType)
  | union (t : GraphQLUnionType)
  | enum (t : GraphQLEnumType)
  | inputObject (t : GraphQLInputObjectType)
deriving Repr, DecidableEq

structure GraphQLDirective where
  name : String
  description : Option String
  args : List (String × GraphQLArgument)
  locations : List String
deriving Repr, DecidableEq

/-- The schema as the printer reads it: the three optional root types (by
rendered name), the declared directive list, and the insertion-ordered
type map. -/
structure GraphQLSchema where
  query : Option String
  mutation : Option String
  subscription : Option String
  directives : List GraphQLDirective
  type_map : List (String × GraphQLType)
deriving Repr, DecidableEq

/-! ### Filters and ordering -/

/-- Source `is_spec_directive(directive_name)`. -/
def is_spec_directive (directive_name : String) : Bool :=
  (["skip", "include", "deprecated"] : List String).contains directive_name

/-- Source `_is_introspection_type(typename)`. -/
def _is_introspection_type (typename : String) : Bool :=
  typename.startsWith "__"

/-- Source `_builtin_scalars`. -/
def _builtin_scalars : List String :=
  ["String", "Boolean", "Int", "Float", "ID"]

/-- Source `_is_builtin_scalar(typename)`. -/
def _is_builtin_scalar (typename : String) : Bool :=
  _builtin_scalars.contains typename

/-- Source `_is_defined_type(typename)`. -/
def _is_defined_type (typename : String) : Bool :=
  !(_is_introspection_type typename) && !(_is_builtin_scalar typename)

/-- Stable insertion of one entry into a name-sorted entry list. -/
def insertByName (x : String × GraphQLType) :
    List (String × GraphQLType) → List (String × GraphQLType)
  | [] => [x]
  | y :: ys => if x.1 < y.1 then x :: y :: ys else y :: insertByName x ys

/-- Python `sorted(schema.get_type_map().items())`: the type-map entries
sorted lexicographically by type name (names are unique, so the tuple
comparison never reaches the second component). -/
def sortTypes : List (String × GraphQLType) → List (String × GraphQLType)
  | [] => []
  | x :: xs => insertByName x (sortTypes xs)

/-! ### Per-kind formatters -/

/-- Source `_print_deprecated(field_or_enum_value)`, taking the
`deprecation_reason` attribute it reads; `litText` is the external
literal-text service, `defaultReason` the shared sentinel. -/
def _print_deprecated (litText : String → String) (defaultReason : String)
    (reason : Option String) : String :=
  match reason with
  | none => ""
  | some r =>
    if r = "" ∨ r = defaultReason then " @deprecated"
    else " @deprecated(reason: " ++ litText r ++ ")"

/-- Source `_print_input_value(name, arg)`. -/
def _print_input_value (name : String) (arg : GraphQLArgument) : String :=
  name ++ ": " ++ arg.type ++
    (match arg.default_value with
     | some d => " = " ++ d
     | none => "")

/-- Source `_print_args(field_or_directives)`, taking the `args` attribute
it reads. -/
def _print_args (args : List (String × GraphQLArgument)) : String :=
  if args.isEmpty then ""
  else if args.all (fun p => isEmptyDesc p.2.description) then
    "(" ++ String.intercalate ", " (args.map (fun p => _print_input_value p.1 p.2)) ++ ")"
  else
    "(\n" ++
      String.intercalate "\n"
        (args.enum.map (fun p =>
          _print_description p.2.2.description "  " (p.1 == 0) ++ "  " ++
            _print_input_value p.2.1 p.2.2)) ++
      "\n)"

/-- Source `_print_fields(type)`, taking the ordered field mapping it
iterates over. -/
def _print_fields (litText : String → String) (defaultReason : String)
    (fields : List (String × GraphQLField)) : String :=
  String.intercalate "\n"
    (fields.enum.map (fun p =>
      _print_description p.2.2.description "  " (p.1 == 0) ++ "  " ++ p.2.1 ++
        _print_args p.2.2.args ++ ": " ++ p.2.2.type ++
        _print_deprecated litText defaultReason p.2.2.deprecation_reason))

/-- Source `_print_scalar(type)`. -/
def _print_scalar (t : GraphQLScalarType) : String :=
  _print_description t.description "" true ++ "scalar " ++ t.name

/-- Source `_print_object(type)`. -/
def _print_object (litText : String → String) (defaultReason : String)
    (t : GraphQLObjectType) : String :=
  _print_description t.description "" true ++ "type " ++ t.name ++
    (if t.interfaces.isEmpty then ""
     else " implements " ++ String.intercalate ", " t.interfaces) ++
    " \x7b\n" ++ _print_fields litText defaultReason t.fields ++ "\n\x7d"

/-- Source `_print_interface(type)`. -/
def _print_interface (litText : String → String) (defaultReason : String)
    (t : GraphQLInterfaceType) : String :=
  _print_description t.description "" true ++ "interface " ++ t.name ++
    " \x7b\n" ++ _print_fields litText defaultReason t.fields ++ "\n\x7d"

/-- Source `_print_union(type)`. -/
def _print_union (t : GraphQLUnionType) : String :=
  _print_description t.description "" true ++ "union " ++ t.name ++ " = " ++
    String.intercalate " | " t.types

/-- Source `_print_enum(type)`. -/
def _print_enum (litText : String → String) (defaultReason : String)
    (t : GraphQLEnumType) : String :=
  _print_description t.description "" true ++ "enum " ++ t.name ++ " \x7b\n" ++
    String.intercalate "\n"
      (t.values.enum.map (fun p =>
        _print_description p.2.description "  " (p.1 == 0) ++ "  " ++ p.2.name ++
          _print_deprecated litText defaultReason p.2.deprecation_reason)) ++
    "\n\x7d"

/-- Source `_print_input_object(type)`. -/
def _print_input_object (t : GraphQLInputObjectType) : String :=
  _print_description t.description "" true ++ "input " ++ t.name ++ " \x7b\n" ++
    String.intercalate "\n"
      (t.fields.enum.map (fun p =>
        _print_description p.2.2.description "  " (p.1 == 0) ++ "  " ++
          _print_input_value p.2.1 p.2.2)) ++
    "\n\x7d"

/-- Source `_print_directive(directive)`. -/
def _print_directive (directive : GraphQLDirective) : String :=
  _print_description directive.description "" true ++ "directive @" ++
    directive.name ++ _print_args directive.args ++ " on " ++
    String.intercalate " | " directive.locations

/-- Source `_print_type(type)` on the closed model: exhaustive dispatch to
the per-kind formatter. -/
def _print_type (litText : String → String) (defaultReason : String) :
    GraphQLType → String
  | .scalar t => _print_scalar t
  | .object t => _print_object litText defaultReason t
  | .interface t => _print_interface litText defaultReason t
  | .union t => _print_union t
  | .enum t => _print_enum litText defaultReason t
  | .inputObject t => _print_input_object t

/-- A value reaching the dynamically-typed dispatcher: either a schema
type of a recognized kind or any other runtime object. -/
inductive PyObject where
  | known (t : GraphQLType)
  | foreign (what : String)
deriving Repr, DecidableEq

/-- The `isinstance` chain of `_print_type` as executed by the dynamic
runtime: every recognized kind is rendered, anything else trips the final
`assert isinstance(type, GraphQLInputObjectType)` — embedded as `none`. -/
def _print_type_dispatch (litText : String → String) (defaultReason : String) :
    PyObject → Option String
  | .known (.scalar t) => some (_print_scalar t)
  | .known (.object t) => some (_print_object litText defaultReason t)
  | .known (.interface t) => some (_print_interface litText defaultReason t)
  | .known (.union t) => some (_print_union t)
  | .known (.enum t) => some (_print_enum litText defaultReason t)
  | .known (.inputObject t) => some (_print_input_object t)
  | .foreign _ => none

/-! ### Top-level assembly -/

/-- Source `_print_schema_definition(schema)`. -/
def _print_schema_definition (schema : GraphQLSchema) : String :=
  let operation_types :=
    (match schema.query with
     | some q => ["  query: " ++ q]
     | none => []) ++
    (match schema.mutation with
     | some m => ["  mutation: " ++ m]
     | none => []) ++
    (match schema.subscription with
     | some s => ["  subscription: " ++ s]
     | none => [])
  "schema \x7b\n" ++ String.intercalate "\n" operation_types ++ "\n\x7d"

/-- Source `_print_filtered_schema(schema, directive_filter, type_filter)`. -/
def _print_filtered_schema (litText : String → String) (defaultReason : String)
    (schema : GraphQLSchema) (directive_filter : String → Bool)
    (type_filter : String → Bool) : String :=
  String.intercalate "\n\n"
    ([_print_schema_definition schema] ++
      (schema.directives.filter (fun d => directive_filter d.name)).map
        _print_directive ++
      ((sortTypes schema.type_map).filter (fun p => type_filter p.1)).map
        (fun p => _print_type litText defaultReason p.2)) ++
    "\n"

/-- Source `print_schema(schema)`. -/
def print_schema (litText : String → String) (defaultReason : String)
    (schema : GraphQLSchema) : String :=
  _print_filtered_schema litText defaultReason schema
    (fun n => !(is_spec_directive n)) _is_defined_type

/-- Source `print_introspection_schema(schema)`. -/
def print_introspection_schema (litText : String → String)
    (defaultReason : String) (schema : GraphQLSchema) : String :=
  _print_filtered_schema litText defaultReason schema
    is_spec_directive _is_introspection_type

/-! ### Ordering lemmas for the type map -/

theorem insertByName_perm (x : String × GraphQLType) (l : List (String × GraphQLType)) :
    List.Perm (insertByName x l) (x :: l) := by
  induction l with
  | nil => exact List.Perm.refl _
  | cons y ys ih =>
    simp only [insertByName]
    split
    · exact List.Perm.refl _
    · exact (List.Perm.cons y ih).trans (List.Perm.swap x y ys)

theorem mem_insertByName {z x : String × GraphQLType} {l : List (String × GraphQLType)} :
    z ∈ insertByName x l ↔ z = x ∨ z ∈ l := by
  rw [(insertByName_perm x l).mem_iff, List.mem_cons]

theorem sortTypes_perm (l : List (String × GraphQLType)) : List.Perm (sortTypes l) l := by
  induction l with
  | nil => exact List.Perm.refl _
  | cons x xs ih =>
    exact (insertByName_perm x (sortTypes xs)).trans (List.Perm.cons x ih)

theorem mem_sortTypes {z : String × GraphQLType} {l : List (String × GraphQLType)} :
    z ∈ sortTypes l ↔ z ∈ l :=
  (sortTypes_perm l).mem_iff

theorem insertByName_pairwise (x : String × GraphQLType)
    {l : List (String × GraphQLType)}
    (h : l.Pairwise (fun p q => p.1 ≤ q.1)) :
    (insertByName x l).Pairwise (fun p q => p.1 ≤ q.1) := by
  induction l with
  | nil => simp [insertByName]
  | cons y ys ih =>
    rw [List.pairwise_cons] at h
    simp only [insertByName]
    split
    case isTrue hlt =>
      rw [List.pairwise_cons]
      refine ⟨?_, List.pairwise_cons.mpr h⟩
      intro z hz
      rcases List.mem_cons.mp hz with hzy | hzys
      · exact hzy ▸ le_of_lt hlt
      · exact le_trans (le_of_lt hlt) (h.1 z hzys)
    case isFalse hnlt =>
      rw [List.pairwise_cons]
      refine ⟨?_, ih h.2⟩
      intro z hz
      rcases mem_insertByName.mp hz with hzx | hzys
      · exact hzx ▸ le_of_not_lt hnlt
      · exact h.1 z hzys

theorem sortTypes_pairwise (l : List (String × GraphQLType)) :
    (sortTypes l).Pairwise (fun p q => p.1 ≤ q.1) := by
  induction l with
  | nil => exact List.Pairwise.nil
  | cons x xs ih => exact insertByName_pairwise x ih

/-! ### Claim theorems: filtering and assembly -/

/-- C1: `printSchema` emits no type block for introspection types (name
starting with `__`) or the five builtin scalars, and no directive block
for the three specification directives; every other type and directive of
the schema appears, the output being exactly the join of the surviving
blocks. -/
theorem print_schema_filters (litText : String → String) (defaultReason : String)
    (schema : GraphQLSchema) :
    (∀ p : String × GraphQLType,
        p ∈ (sortTypes schema.type_map).filter (fun q => _is_defined_type q.1) ↔
          p ∈ schema.type_map ∧ ¬ p.1.startsWith "__" ∧ p.1 ∉ _builtin_scalars)
  ∧ (∀ d : GraphQLDirective,
        d ∈ schema.directives.filter (fun e => !(is_spec_directive e.name)) ↔
          d ∈ schema.directives ∧ d.name ≠ "skip" ∧ d.name ≠ "include" ∧
            d.name ≠ "deprecated")
  ∧ print_schema litText defaultReason schema =
      String.intercalate "\n\n"
        (_print_schema_definition schema ::
          ((schema.directives.filter (fun e => !(is_spec_directive e.name))).map
              _print_directive ++
            ((sortTypes schema.type_map).filter (fun q => _is_defined_type q.1)).map
              (fun p => _print_type litText defaultReason p.2))) ++ "\n" := by
  refine ⟨?_, ?_, rfl⟩
  · intro p
    rw [List.mem_filter, mem_sortTypes]
    simp [_is_defined_type, _is_introspection_type, _is_builtin_scalar,
      _builtin_scalars, List.elem_iff]
  · intro d
    rw [List.mem_filter]
    simp [is_spec_directive, List.elem_iff]

/-- C6: the type blocks of `printIntrospectionSchema` are exactly those
whose name starts with `__`, and the only directive blocks emitted are
those named `skip`, `include` or `deprecated`. -/
theorem print_introspection_schema_filters (litText : String → String)
    (defaultReason : String) (schema : GraphQLSchema) :
    (∀ p : String × GraphQLType,
        p ∈ (sortTypes schema.type_map).filter (fun q => _is_introspection_type q.1) ↔
          p ∈ schema.type_map ∧ p.1.startsWith "__")
  ∧ (∀ d : GraphQLDirective,
        d ∈ schema.directives.filter (fun e => is_spec_directive e.name) ↔
          d ∈ schema.directives ∧
            (d.name = "skip" ∨ d.name = "include" ∨ d.name = "deprecated"))
  ∧ print_introspection_schema litText defaultReason schema =
      String.intercalate "\n\n"
        (_print_schema_definition schema ::
          ((schema.directives.filter (fun e => is_spec_directive e.name)).map
              _print_directive ++
            ((sortTypes schema.type_map).filter
                (fun q => _is_introspection_type q.1)).map
              (fun p => _print_type litText defaultReason p.2))) ++ "\n" := by
  refine ⟨?_, ?_, rfl⟩
  · intro p
    rw [List.mem_filter, mem_sortTypes]
    simp [_is_introspection_type]
  · intro d
    rw [List.mem_filter]
    simp [is_spec_directive, List.elem_iff]

/-- C2: for both entry points the output is the schema definition block,
then the surviving directive blocks in declaration order, then the
surviving type blocks sorted lexicographically by name, joined by blank
lines with one trailing newline; within blocks the declared order of
fields, arguments, union members and directive locations is kept. -/
theorem printed_schema_block_structure (litText : String → String)
    (defaultReason : String) (schema : GraphQLSchema) :
    (print_schema litText defaultReason schema =
      String.intercalate "\n\n"
        (_print_schema_definition schema ::
          ((schema.directives.filter (fun e => !(is_spec_directive e.name))).map
              _print_directive ++
            ((sortTypes schema.type_map).filter (fun q => _is_defined_type q.1)).map
              (fun p => _print_type litText defaultReason p.2))) ++ "\n")
  ∧ (print_introspection_schema litText defaultReason schema =
      String.intercalate "\n\n"
        (_print_schema_definition schema ::
          ((schema.directives.filter (fun e => is_spec_directive e.name)).map
              _print_directive ++
            ((sortTypes schema.type_map).filter
                (fun q => _is_introspection_type q.1)).map
              (fun p => _print_type litText defaultReason p.2))) ++ "\n")
  ∧ List.Perm (sortTypes schema.type_map) schema.type_map
  ∧ ((sortTypes schema.type_map).filter (fun q => _is_defined_type q.1)).Pairwise
      (fun p q => p.1 ≤ q.1)
  ∧ ((sortTypes schema.type_map).filter (fun q => _is_introspection_type q.1)).Pairwise
      (fun p q => p.1 ≤ q.1)
  ∧ (∀ fields : List (String × GraphQLField),
      _print_fields litText defaultReason fields =
        String.intercalate "\n"
          (fields.enum.map (fun p =>
            _print_description p.2.2.description "  " (p.1 == 0) ++ "  " ++ p.2.1 ++
              _print_args p.2.2.args ++ ": " ++ p.2.2.type ++
              _print_deprecated litText defaultReason p.2.2.deprecation_reason)))
  ∧ (∀ u : GraphQLUnionType,
      _print_union u = _print_description u.description "" true ++ "union " ++
        u.name ++ " = " ++ String.intercalate " | " u.types)
  ∧ (∀ d : GraphQLDirective,
      _print_directive d = _print_description d.description "" true ++
        "directive @" ++ d.name ++ _print_args d.args ++ " on " ++
        String.intercalate " | " d.locations) := by
  exact ⟨rfl, rfl, sortTypes_perm _,
    List.Pairwise.filter _ (sortTypes_pairwise _),
    List.Pairwise.filter _ (sortTypes_pairwise _),
    fun _ => rfl, fun _ => rfl, fun _ => rfl⟩

/-- C5: the schema definition block is a `schema` wrapper listing exactly
the present root types, each on its own indented line, in the fixed order
query, mutation, subscription; with no root type present the empty wrapper
is still emitted. -/
theorem print_schema_definition_block (schema : GraphQLSchema) :
    _print_schema_definition schema =
      "schema \x7b\n" ++
        String.intercalate "\n"
          (schema.query.toList.map (fun q => "  query: " ++ q) ++
            schema.mutation.toList.map (fun m => "  mutation: " ++ m) ++
            schema.subscription.toList.map (fun s => "  subscription: " ++ s)) ++
        "\n\x7d"
  ∧ (schema.query = none → schema.mutation = none → schema.subscription = none →
      _print_schema_definition schema = "schema \x7b\n\n\x7d") := by
  obtain ⟨q, m, s, ds, tm⟩ := schema
  constructor
  · cases q <;> cases m <;> cases s <;> rfl
  · intro hq hm hs
    simp only at hq hm hs
    subst hq; subst hm; subst hs
    rfl

/-- C5 witness: the all-absent schema still renders the empty wrapper. -/
theorem print_schema_definition_block_witness :
    _print_schema_definition ⟨none, none, none, [], []⟩ = "schema \x7b\n\n\x7d" :=
  (print_schema_definition_block ⟨none, none, none, [], []⟩).2 rfl rfl rfl

/-- C7: the deprecation annotator returns the empty string for an absent
reason, bare `@deprecated` for the empty reason or the shared sentinel,
and otherwise the reason rendered through the literal-text service. -/
theorem print_deprecated_cases (litText : String → String) (defaultReason : String) :
    _print_deprecated litText defaultReason none = ""
  ∧ _print_deprecated litText defaultReason (some "") = " @deprecated"
  ∧ _print_deprecated litText defaultReason (some defaultReason) = " @deprecated"
  ∧ (∀ r : String, r ≠ "" → r ≠ defaultReason →
      _print_deprecated litText defaultReason (some r) =
        " @deprecated(reason: " ++ litText r ++ ")") := by
  refine ⟨rfl, ?_, ?_, ?_⟩
  · simp [_print_deprecated]
  · simp [_print_deprecated]
  · intro r h1 h2
    simp [_print_deprecated, h1, h2]

/-- C7 witness at a concrete reason and sentinel. -/
theorem print_deprecated_cases_witness :
    _print_deprecated (fun s => "\"" ++ s ++ "\"") "No longer supported"
        (some "use other") = " @deprecated(reason: \"use other\")" := by
  have h := (print_deprecated_cases (fun s => "\"" ++ s ++ "\"")
    "No longer supported").2.2.2 "use other" (by decide) (by decide)
  exact h.trans (by decide)

/-- C9: the dispatcher fails (the trailing assertion) exactly on values
that are not schema types of a recognized kind; every recognized kind is
rendered by its own formatter and never silently skipped. -/
theorem print_type_dispatch_exhaustive (litText : String → String)
    (defaultReason : String) :
    (∀ o : PyObject, _print_type_dispatch litText defaultReason o = none ↔
        ∀ t : GraphQLType, o ≠ PyObject.known t)
  ∧ (∀ t : GraphQLType, _print_type_dispatch litText defaultReason (PyObject.known t) =
        some (_print_type litText defaultReason t))
  ∧ (∀ t, _print_type litText defaultReason (GraphQLType.scalar t) = _print_scalar t)
  ∧ (∀ t, _print_type litText defaultReason (GraphQLType.object t) =
        _print_object litText defaultReason t)
  ∧ (∀ t, _print_type litText defaultReason (GraphQLType.interface t) =
        _print_interface litText defaultReason t)
  ∧ (∀ t, _print_type litText defaultReason (GraphQLType.union t) = _print_union t)
  ∧ (∀ t, _print_type litText defaultReason (GraphQLType.enum t) =
        _print_enum litText defaultReason t)
  ∧ (∀ t, _print_type litText defaultReason (GraphQLType.inputObject t) =
        _print_input_object t) := by
  refine ⟨?_, ?_, fun _ => rfl, fun _ => rfl, fun _ => rfl, fun _ => rfl,
    fun _ => rfl, fun _ => rfl⟩
  · intro o
    cases o with
    | known t =>
      cases t <;> simp [_print_type_dispatch]
    | foreign w =>
      simp [_print_type_dispatch]
  · intro t
    cases t <;> rfl

/-! ### Escaping lemmas -/

theorem splitOnTriple_ne_nil (cs : List Char) : splitOnTriple cs ≠ [] := by
  induction cs using escapeQuoteL.induct with
  | case1 => simp [splitOnTriple]
  | case2 c1 c2 c3 rest2 h ih => simp [splitOnTriple, h]
  | case3 c1 c2 c3 rest2 h ih =>
    simp only [splitOnTriple, if_neg h]
    rcases hsp : splitOnTriple (c2 :: c3 :: rest2) with _ | ⟨ch, chs⟩
    · exact absurd hsp ih
    · simp
  | case4 c1 => simp [splitOnTriple]
  | case5 c1 c2 => simp [splitOnTriple]

theorem joinSep_cons_head (sep : List Char) (c : Char) (ch : List Char)
    (chs : List (List Char)) :
    joinSep sep ((c :: ch) :: chs) = c :: joinSep sep (ch :: chs) := by
  cases chs with
  | nil => rfl
  | cons b t => simp [joinSep]

theorem joinSep_splitOnTriple (cs : List Char) :
    joinSep ['"', '"', '"'] (splitOnTriple cs) = cs := by
  induction cs using escapeQuoteL.induct with
  | case1 => rfl
  | case2 c1 c2 c3 rest2 h ih =>
    simp only [splitOnTriple, if_pos h]
    rcases hsp : splitOnTriple rest2 with _ | ⟨ch, chs⟩
    · exact absurd hsp (splitOnTriple_ne_nil rest2)
    · rw [hsp] at ih
      simp [joinSep, ih, h.1, h.2.1, h.2.2]
  | case3 c1 c2 c3 rest2 h ih =>
    simp only [splitOnTriple, if_neg h]
    rcases hsp : splitOnTriple (c2 :: c3 :: rest2) with _ | ⟨ch, chs⟩
    · exact absurd hsp (splitOnTriple_ne_nil _)
    · rw [hsp] at ih
      simp only [joinSep_cons_head, ih]
  | case4 c1 => rfl
  | case5 c1 c2 => rfl

theorem escapeQuoteL_eq_joinSep (cs : List Char) :
    escapeQuoteL cs = joinSep ['\\', '"', '"', '"'] (splitOnTriple cs) := by
  induction cs using escapeQuoteL.induct with
  | case1 => rfl
  | case2 c1 c2 c3 rest2 h ih =>
    simp only [splitOnTriple, escapeQuoteL, if_pos h]
    rcases hsp : splitOnTriple rest2 with _ | ⟨ch, chs⟩
    · exact absurd hsp (splitOnTriple_ne_nil rest2)
    · rw [hsp] at ih
      simp [joinSep, ih]
  | case3 c1 c2 c3 rest2 h ih =>
    simp only [splitOnTriple, escapeQuoteL, if_neg h]
    rcases hsp : splitOnTriple (c2 :: c3 :: rest2) with _ | ⟨ch, chs⟩
    · exact absurd hsp (splitOnTriple_ne_nil _)
    · rw [hsp] at ih
      simp only [joinSep_cons_head, ih]
  | case4 c1 => rfl
  | case5 c1 c2 => rfl

theorem splitOnTriple_first_chunk :
    ∀ cs ch chs, splitOnTriple cs = ch :: chs → ∃ t, ch ++ t = cs := by
  intro cs
  induction cs using escapeQuoteL.induct with
  | case1 =>
    intro ch chs h
    simp [splitOnTriple] at h
    exact ⟨[], by simp [h.1]⟩
  | case2 c1 c2 c3 rest2 h ih =>
    intro ch chs hh
    simp only [splitOnTriple, if_pos h] at hh
    exact ⟨c1 :: c2 :: c3 :: rest2, by simp [(List.cons_eq_cons.mp hh).1.symm]⟩
  | case3 c1 c2 c3 rest2 h ih =>
    intro ch chs hh
    simp only [splitOnTriple, if_neg h] at hh
    rcases hsp : splitOnTriple (c2 :: c3 :: rest2) with _ | ⟨ch2, chs2⟩
    · exact absurd hsp (splitOnTriple_ne_nil _)
    · rw [hsp] at hh
      obtain ⟨t, ht⟩ := ih ch2 chs2 hsp
      obtain ⟨h1, h2⟩ := List.cons_eq_cons.mp hh
      exact ⟨t, by simp [h1.symm, ht]⟩
  | case4 c1 =>
    intro ch chs h
    simp [splitOnTriple] at h
    exact ⟨[], by simp [h.1.symm]⟩
  | case5 c1 c2 =>
    intro ch chs h
    simp [splitOnTriple] at h
    exact ⟨[], by simp [h.1.symm]⟩

theorem splitOnTriple_chunks_free (cs : List Char) :
    ∀ chunk ∈ splitOnTriple cs, containsTriple chunk = false := by
  induction cs using escapeQuoteL.induct with
  | case1 =>
    intro chunk h
    simp [splitOnTriple] at h
    simp [h, containsTriple]
  | case2 c1 c2 c3 rest2 h ih =>
    intro chunk hm
    simp only [splitOnTriple, if_pos h] at hm
    rcases List.mem_cons.mp hm with h0 | hrest
    · simp [h0, containsTriple]
    · exact ih chunk hrest
  | case3 c1 c2 c3 rest2 h ih =>
    intro chunk hm
    simp only [splitOnTriple, if_neg h] at hm
    rcases hsp : splitOnTriple (c2 :: c3 :: rest2) with _ | ⟨ch2, chs2⟩
    · exact absurd hsp (splitOnTriple_ne_nil _)
    · rw [hsp] at hm
      rcases List.mem_cons.mp hm with h0 | hrest
    
      · -- chunk = c1 :: ch2, ch2 a prefix of c2 :: c3 :: rest2
        have hfree : containsTriple ch2 = false := ih ch2 (hsp ▸ List.mem_cons_self _ _)
        obtain ⟨t, ht⟩ := splitOnTriple_first_chunk _ _ _ hsp
        subst h0
        cases ch2 with
        | nil => simp [containsTriple]
        | cons x xs =>
          cases xs with
          | nil => simp [containsTriple]
          | cons y ys =>
            have hx : x = c2 := by
              have := congrArg (fun l => l.get? 0) ht
              simpa using this
            have hy : y = c3 := by
              have := congrArg (fun l => l.get? 1) ht
              simpa using this
            subst hx; subst hy
            simp only [containsTriple, if_neg h]
            exact hfree
      · exact ih chunk (hsp ▸ List.mem_cons_of_mem _ hrest)
  | case4 c1 =>
    intro chunk h
    simp [splitOnTriple] at h
    simp [h, containsTriple]
  | case5 c1 c2 =>
    intro chunk h
    simp [splitOnTriple] at h
    simp [h, containsTriple]

/-- C8 counterexample: deprecation-reason text is not routed through the
triple-quote replacement.  With the literal-text service taken as the
identity, the reason `x"""y` is embedded with its `"""` occurrence intact
(the output contains a literal `"""`), and the output differs from the
embedding of the escaped reason that the claim predicts. -/
theorem escape_quote_reason_not_escaped_cex :
    _print_deprecated (fun s => s) "No longer supported" (some "x\"\"\"y") =
      " @deprecated(reason: x\"\"\"y)"
  ∧ containsTriple (" @deprecated(reason: x\"\"\"y)" : String).data = true
  ∧ (" @deprecated(reason: x\"\"\"y)" : String) ≠
      " @deprecated(reason: " ++ _escape_quote "x\"\"\"y" ++ ")" :=
  ⟨by decide, by decide, by decide⟩

/-- C8 (amended): every literal occurrence of `"""` in description text is
replaced by `\\"""` before the text is embedded in a block string: the
replacement replaces every occurrence (the escaped text is the triple-free
chunks joined by `\\"""`, the chunks contain no `"""`, and joined by `"""`
they give back the input), and the description formatter embeds each line
through this replacement in both its single-line and multi-line forms.
Deprecation-reason text is not routed through this replacement: the
printer hands the reason verbatim to the external literal-text service. -/
theorem escape_quote_sites_amended (litText : String → String) (dr : String)
    (s d indentation : String) (fib : Bool) (r : String)
    (hd : d ≠ "") (hr : r ≠ "") (hrd : r ≠ dr) :
    ((_escape_quote s).data = joinSep ['\\', '"', '"', '"'] (splitOnTriple s.data)
      ∧ (∀ chunk ∈ splitOnTriple s.data, containsTriple chunk = false)
      ∧ joinSep ['"', '"', '"'] (splitOnTriple s.data) = s.data)
  ∧ ((_description_lines d (MAX_DESC_LEN - indentation.length)).length = 1 ∧
        ((_description_lines d (MAX_DESC_LEN - indentation.length)).headD "").length < 70 ∧
        0 < ((_description_lines d (MAX_DESC_LEN - indentation.length)).headD "").length ∧
        ((_description_lines d (MAX_DESC_LEN - indentation.length)).headD "").back ≠ '"' →
      _print_description (some d) indentation fib =
        (if indentation ≠ "" ∧ fib = false then "\n" ++ indentation ++ "\"\"\""
         else indentation ++ "\"\"\"") ++
          _escape_quote ((_description_lines d (MAX_DESC_LEN - indentation.length)).headD "") ++
          "\"\"\"\n")
  ∧ (¬ ((_description_lines d (MAX_DESC_LEN - indentation.length)).length = 1 ∧
        ((_description_lines d (MAX_DESC_LEN - indentation.length)).headD "").length < 70 ∧
        0 < ((_description_lines d (MAX_DESC_LEN - indentation.length)).headD "").length ∧
        ((_description_lines d (MAX_DESC_LEN - indentation.length)).headD "").back ≠ '"') →
      _print_description (some d) indentation fib =
        (if (((_description_lines d (MAX_DESC_LEN - indentation.length)).headD "").length == 0 ||
              ((_description_lines d (MAX_DESC_LEN - indentation.length)).headD "").front == ' ' ||
              ((_description_lines d (MAX_DESC_LEN - indentation.length)).headD "").front == '\t') = true
         then (if indentation ≠ "" ∧ fib = false then "\n" ++ indentation ++ "\"\"\""
               else indentation ++ "\"\"\"")
         else (if indentation ≠ "" ∧ fib = false then "\n" ++ indentation ++ "\"\"\""
               else indentation ++ "\"\"\"") ++ "\n") ++
          String.join ((_description_lines d (MAX_DESC_LEN - indentation.length)).map _escape_quote) ++
          indentation ++ "\"\"\"\n")
  ∧ _print_deprecated litText dr (some r) = " @deprecated(reason: " ++ litText r ++ ")" := by
  have hde : isEmptyDesc (some d) = false := by
    simp [isEmptyDesc, hd]
  refine ⟨⟨escapeQuoteL_eq_joinSep s.data, splitOnTriple_chunks_free s.data,
    joinSep_splitOnTriple s.data⟩, ?_, ?_, ?_⟩
  · intro hc
    simp only [_print_description, hde, Bool.false_eq_true, if_false, Option.getD_some]
    rw [if_pos hc]
  · intro hc
    simp only [_print_description, hde, Bool.false_eq_true, if_false, Option.getD_some]
    rw [if_neg hc]
  · simp [_print_deprecated, hr, hrd]

/-- C8 witness: a description containing `"""` is embedded escaped, and a
concrete deprecation reason is handed to the literal-text service
verbatim. -/
theorem escape_quote_sites_amended_witness :
    _print_description (some "see \"\"\" marks") "" true =
      "\"\"\"see \\\"\"\" marks\"\"\"\n"
  ∧ _print_deprecated (fun s => s) "No longer supported" (some "x\"\"\"y") =
      " @deprecated(reason: x\"\"\"y)" := by
  have h := escape_quote_sites_amended (fun s => s) "No longer supported" ""
    "see \"\"\" marks" "" true "x\"\"\"y" (by decide) (by decide) (by decide)
  constructor
  · have h1 := h.2.1 (by decide)
    exact h1.trans (by decide)
  · exact h.2.2.2

/-! ### Claim theorems: the description single-line shorthand -/

/-- C3 counterexample: on the two-character description `hi` with
indentation `"  "` and `first_in_block = false` the single-line shorthand
is emitted with a leading newline, so the output is not
`indentation + triple-quote + line + triple-quote + newline` as claimed. -/
theorem print_description_single_line_cex :
    _print_description (some "hi") "  " false = "\n  \"\"\"hi\"\"\"\n" ∧
    ("\n  \"\"\"hi\"\"\"\n" : String) ≠ "  \"\"\"hi\"\"\"\n" :=
  ⟨by decide, by decide⟩

/-- C3 (amended): for every description whose wrapped form is exactly one
line that is non-empty, shorter than 70 characters and not ending in a
quote, the formatter emits the single-line shorthand
`prefix + triple-quote + escaped(line) + triple-quote + newline`, where
`prefix` is the indentation alone when the indentation is empty or
`firstInBlock` is true, and a newline followed by the indentation
otherwise — the leading blank-line logic is applied to the single-line
shorthand as well. -/
theorem print_description_single_line_amended (d indentation : String) (fib : Bool)
    (hd : d ≠ "")
    (h1 : (_description_lines d (MAX_DESC_LEN - indentation.length)).length = 1)
    (h2 : ((_description_lines d (MAX_DESC_LEN - indentation.length)).headD "").length < 70)
    (h3 : 0 < ((_description_lines d (MAX_DESC_LEN - indentation.length)).headD "").length)
    (h4 : ((_description_lines d (MAX_DESC_LEN - indentation.length)).headD "").back ≠ '"') :
    _print_description (some d) indentation fib =
      (if indentation ≠ "" ∧ fib = false then "\n" ++ indentation else indentation) ++
        "\"\"\"" ++
        _escape_quote ((_description_lines d (MAX_DESC_LEN - indentation.length)).headD "") ++
        "\"\"\"\n" := by
  have hde : isEmptyDesc (some d) = false := by
    simp [isEmptyDesc, hd]
  simp only [_print_description, hde, Bool.false_eq_true, if_false, Option.getD_some]
  rw [if_pos ⟨h1, h2, h3, h4⟩]
  split <;> simp [String.append_assoc]

/-- C3 witness: the amended shorthand at a concrete description. -/
theorem print_description_single_line_amended_witness :
    _print_description (some "hi") "  " false = "\n  \"\"\"hi\"\"\"\n" := by
  have h := print_description_single_line_amended "hi" "  " false (by decide)
    (by decide) (by decide) (by decide) (by decide)
  exact h.trans (by decide)

/-! ### The line-break model: lemmas and claims -/

theorem sliceL_append {cs : List Char} {a b c : Nat} (hab : a ≤ b) (hbc : b ≤ c) :
    sliceL cs a b ++ sliceL cs b c = sliceL cs a c := by
  have hd : cs.drop b = (cs.drop a).drop (b - a) := by
    rw [List.drop_drop]
    congr 1
    omega
  have hc : c - a = (b - a) + (c - b) := by omega
  rw [sliceL, sliceL, sliceL, hd, hc, List.take_add]

theorem slice_zero_length (cs : List Char) : sliceL cs 0 cs.length = cs := by
  simp [sliceL]

theorem slice_cons {cs : List Char} {s e : Nat} {c : Char}
    (h : cs.get? s = some c) (hse : s < e) :
    sliceL cs s e = c :: sliceL cs (s + 1) e := by
  have hlt : s < cs.length := by
    by_contra hge
    rw [List.get?_eq_none.mpr (by omega)] at h
    exact Option.noConfusion h
  have hdrop : cs.drop s = c :: cs.drop (s + 1) := by
    rw [List.drop_eq_getElem_cons hlt]
    congr 1
    have := List.get?_eq_getElem? cs s
    rw [h] at this
    have h2 := List.getElem?_eq_getElem hlt
    rw [h2] at this
    exact (Option.some_inj.mp this.symm)
  have he : e - s = (e - (s + 1)) + 1 := by omega
  rw [sliceL, hdrop, he, List.take_succ_cons, sliceL]

theorem slice_drop_one (cs : List Char) (s e : Nat) :
    (sliceL cs s e).drop 1 = sliceL cs (s + 1) e := by
  rw [sliceL, List.drop_take, List.drop_drop, sliceL]
  congr 1 <;> omega

theorem findK_some {cs : List Char} {start : Nat} :
    ∀ {n e : Nat}, findK cs start n = some e → start + 15 ≤ e ∧ e ≤ start + n := by
  intro n
  induction n with
  | zero => intro e h; exact Option.noConfusion h
  | succ k ih =>
    intro e h
    rw [findK] at h
    split at h
    · exact Option.noConfusion h
    · split at h
      · rename_i hlt _
        have := Option.some_inj.mp h
        omega
      · have := ih h
        omega

theorem matchAt_some_bounds {cs : List Char} {m i e : Nat}
    (h : matchAt cs m i = some e) : i < e ∧ e ≤ cs.length := by
  rw [matchAt] at h
  split at h
  · rename_i e2 heq
    split at heq
    · rename_i hsp
      have hi : i < cs.length := by
        rcases List.get?_eq_some.mp (by simpa using hsp) with ⟨hlt, _⟩
        exact hlt
      have hb := findK_some heq
      have := Option.some_inj.mp h
      omega
    · exact Option.noConfusion heq
  · rename_i heq
    split at h
    · rename_i hi0
      subst hi0
      have hb := findK_some h
      omega
    · exact Option.noConfusion h

theorem matchAt_some_space {cs : List Char} {m i e : Nat}
    (h : matchAt cs m i = some e) (hi : i ≠ 0) : cs.get? i = some ' ' := by
  rw [matchAt] at h
  split at h
  · rename_i e2 heq
    split at heq
    · rename_i hsp
      simpa using hsp
    · exact Option.noConfusion heq
  · split at h
    · rename_i hi0
      exact absurd hi0 hi
    · exact Option.noConfusion h

theorem ChainWF_mono {cs : List Char} {lo lo2 : Nat} {ms : List (Nat × Nat)}
    (hle : lo2 ≤ lo) (h : ChainWF cs lo ms) : ChainWF cs lo2 ms := by
  cases ms with
  | nil => trivial
  | cons p rest =>
    obtain ⟨s, e⟩ := p
    obtain ⟨h1, h2⟩ := h
    exact ⟨le_trans hle h1, h2⟩

theorem scanAux_wf (cs : List Char) (m : Nat) :
    ∀ (fuel i : Nat), ChainWF cs i (scanAux cs m fuel i) := by
  intro fuel
  induction fuel with
  | zero => intro i; trivial
  | succ f ih =>
    intro i
    rw [scanAux]
    split
    · trivial
    · split
      · rename_i e heq
        have hb := matchAt_some_bounds heq
        exact ⟨le_refl i, hb.1, hb.2, ih e⟩
      · exact ChainWF_mono (Nat.le_succ i) (ih (i + 1))

theorem scanAux_space (cs : List Char) (m : Nat) :
    ∀ (fuel i : Nat), ∀ p ∈ scanAux cs m fuel i, p.1 ≠ 0 → cs.get? p.1 = some ' ' := by
  intro fuel
  induction fuel with
  | zero => intro i p hp; exact absurd hp (List.not_mem_nil p)
  | succ f ih =>
    intro i p hp hne
    rw [scanAux] at hp
    split at hp
    · exact absurd hp (List.not_mem_nil p)
    · split at hp
      · rename_i e heq
        rcases List.mem_cons.mp hp with h0 | hrest
        · subst h0
          exact matchAt_some_space heq hne
        · exact ih e p hrest hne
      · exact ih (i + 1) p hp hne

theorem partsOfMatches_length (cs : List Char) :
    ∀ (ms : List (Nat × Nat)) (pos : Nat),
      (partsOfMatches cs pos ms).length = 2 * ms.length + 1 := by
  intro ms
  induction ms with
  | nil => intro pos; rfl
  | cons p rest ih =>
    intro pos
    obtain ⟨s, e⟩ := p
    simp [partsOfMatches, ih e]
    omega

theorem splitParts_length_odd (cs : List Char) (m : Nat) :
    (splitParts cs m).length % 2 = 1 := by
  rw [splitParts, partsOfMatches_length]
  omega

theorem sublinesLoop_eq_pair (parts : List (List Char)) :
    ∀ idx : Nat, (parts.length - idx) % 2 = 0 →
      sublinesLoop parts idx = pairSublines (parts.drop idx) := by
  have main : ∀ (n idx : Nat), parts.length - idx ≤ n →
      (parts.length - idx) % 2 = 0 →
      sublinesLoop parts idx = pairSublines (parts.drop idx) := by
    intro n
    induction n with
    | zero =>
      intro idx hle _
      have hge : ¬ idx < parts.length := by omega
      rw [sublinesLoop, if_neg hge, List.drop_eq_nil_of_le (by omega)]
      rfl
    | succ k ih =>
      intro idx hle hev
      by_cases hlt : idx < parts.length
      · have hlt2 : idx + 1 < parts.length := by omega
        have hdrop : parts.drop idx =
            parts[idx] :: parts[idx + 1] :: parts.drop (idx + 2) := by
          rw [List.drop_eq_getElem_cons (by omega), List.drop_eq_getElem_cons hlt2]
        rw [sublinesLoop, if_pos hlt, hdrop, pairSublines,
          ih (idx + 2) (by omega) (by omega)]
        congr 2
        · rw [List.getD_eq_getElem?_getD, List.getElem?_eq_getElem (by omega)]
          rfl
        · rw [List.getD_eq_getElem?_getD, List.getElem?_eq_getElem hlt2]
          rfl
      · rw [sublinesLoop, if_neg hlt, List.drop_eq_nil_of_le (by omega)]
        rfl
  exact fun idx => main parts.length idx (by omega)

theorem partsOfMatches_ne_nil (cs : List Char) (pos : Nat) (ms : List (Nat × Nat)) :
    ∃ g gs, partsOfMatches cs pos ms = g :: gs := by
  cases ms with
  | nil => exact ⟨_, _, rfl⟩
  | cons p rest =>
    obtain ⟨s, e⟩ := p
    exact ⟨_, _, rfl⟩

theorem joinSep_cons_ne_nil (sep : List Char) (a : List Char)
    {t : List (List Char)} (h : t ≠ []) :
    joinSep sep (a :: t) = a ++ sep ++ joinSep sep t := by
  cases t with
  | nil => exact absurd rfl h
  | cons b u => rfl

theorem pairSublines_ne_nil {a b : List Char} {t : List (List Char)} :
    pairSublines (a :: b :: t) ≠ [] := by
  rw [pairSublines]
  exact List.cons_ne_nil _ _

theorem ChainWF_mem_lower {cs : List Char} :
    ∀ {ms : List (Nat × Nat)} {lo : Nat}, ChainWF cs lo ms → ∀ p ∈ ms, lo ≤ p.1 := by
  intro ms
  induction ms with
  | nil => intro lo _ p hp; exact absurd hp (List.not_mem_nil p)
  | cons q t ih =>
    intro lo h p hp
    obtain ⟨s, e⟩ := q
    obtain ⟨h1, h2, h3, h4⟩ := h
    rcases List.mem_cons.mp hp with h0 | ht
    · subst h0
      exact h1
    · exact le_trans (le_trans h1 (le_of_lt h2)) (ih h4 p ht)

theorem pairSublines_reconstruct (cs : List Char) :
    ∀ (ms : List (Nat × Nat)) (s e : Nat), s < e → e ≤ cs.length →
      ChainWF cs e ms → (∀ p ∈ ms, cs.get? p.1 = some ' ') →
      joinSep [' '] (pairSublines (sliceL cs s e :: partsOfMatches cs e ms)) =
        sliceL cs (s + 1) cs.length := by
  intro ms
  induction ms with
  | nil =>
    intro s e hse hel _ _
    show joinSep [' '] (pairSublines [sliceL cs s e, sliceL cs e cs.length]) = _
    rw [pairSublines]
    show joinSep [' '] [(sliceL cs s e).drop 1 ++ sliceL cs e cs.length] = _
    rw [joinSep, slice_drop_one, sliceL_append (by omega) hel]
  | cons p rest ih =>
    intro s e hse hel hwf hsp
    obtain ⟨s2, e2⟩ := p
    obtain ⟨hes2, hs2e2, he2l, hwf2⟩ := hwf
    have hsp2 : cs.get? s2 = some ' ' := hsp (s2, e2) (List.mem_cons_self _ _)
    show joinSep [' ']
        (pairSublines (sliceL cs s e :: sliceL cs e s2 :: sliceL cs s2 e2 ::
          partsOfMatches cs e2 rest)) = _
    rw [pairSublines]
    obtain ⟨g, gs, hg⟩ := partsOfMatches_ne_nil cs e2 rest
    rw [joinSep_cons_ne_nil _ _ (by rw [hg]; exact pairSublines_ne_nil)]
    rw [ih s2 e2 hs2e2 he2l hwf2 (fun p hp => hsp p (List.mem_cons_of_mem _ hp))]
    rw [slice_drop_one, sliceL_append (by omega) (by omega)]
    have hcons : sliceL cs s2 cs.length = ' ' :: sliceL cs (s2 + 1) cs.length :=
      slice_cons hsp2 (by omega)
    rw [List.append_assoc, show ([' '] : List Char) ++ sliceL cs (s2 + 1) cs.length =
      sliceL cs s2 cs.length from by rw [hcons]; rfl]
    exact sliceL_append (by omega) (by omega)

theorem splitMatches_wf (cs : List Char) (m : Nat) : ChainWF cs 0 (splitMatches cs m) :=
  scanAux_wf cs m (cs.length + 2) 0

theorem splitMatches_space (cs : List Char) (m : Nat) :
    ∀ p ∈ splitMatches cs m, p.1 ≠ 0 → cs.get? p.1 = some ' ' :=
  scanAux_space cs m (cs.length + 2) 0

theorem breakLinesL_joinSep (cs : List Char) (L : Nat) :
    joinSep [' '] (breakLinesL cs L) = cs := by
  rw [breakLinesL]
  split
  · rfl
  · dsimp only
    split
    · rfl
    · rename_i hlong h4
      have hlen := partsOfMatches_length cs (splitMatches cs (L - 40)) 0
      have hwf := splitMatches_wf cs (L - 40)
      have hsp := splitMatches_space cs (L - 40)
      rcases hms : splitMatches cs (L - 40) with _ | ⟨⟨s1, e1⟩, _ | ⟨⟨s2, e2⟩, rest⟩⟩
      · rw [splitParts, hms] at h4
        simp [partsOfMatches] at h4
      · rw [splitParts, hms] at h4
        simp [partsOfMatches] at h4
      · rw [hms] at hwf hsp
        obtain ⟨_, hs1e1, he1l, he1s2, hs2e2, he2l, hwfr⟩ := hwf
        have hparts : splitParts cs (L - 40) =
            sliceL cs 0 s1 :: sliceL cs s1 e1 :: sliceL cs e1 s2 :: sliceL cs s2 e2 ::
              partsOfMatches cs e2 rest := by
          rw [splitParts, hms]
          rfl
        rw [hparts]
        have hoddlen : (sliceL cs 0 s1 :: sliceL cs s1 e1 :: sliceL cs e1 s2 ::
            sliceL cs s2 e2 :: partsOfMatches cs e2 rest).length =
            2 * (rest.length + 2) + 1 := by
          simp [partsOfMatches_length]
          omega
        rw [sublinesLoop_eq_pair _ 3 (by rw [hoddlen]; omega)]
        show joinSep [' ']
          ((List.getD _ 0 [] ++ List.getD _ 1 [] ++ List.getD _ 2 []) ::
            pairSublines (sliceL cs s2 e2 :: partsOfMatches cs e2 rest)) = cs
        show joinSep [' ']
          ((sliceL cs 0 s1 ++ sliceL cs s1 e1 ++ sliceL cs e1 s2) ::
            pairSublines (sliceL cs s2 e2 :: partsOfMatches cs e2 rest)) = cs
        obtain ⟨g, gs, hg⟩ := partsOfMatches_ne_nil cs e2 rest
        rw [joinSep_cons_ne_nil _ _ (by rw [hg]; exact pairSublines_ne_nil)]
        have hs2ne : s2 ≠ 0 := by omega
        have hsp2 : cs.get? s2 = some ' ' :=
          hsp (s2, e2) (List.mem_cons_of_mem _ (List.mem_cons_self _ _)) hs2ne
        rw [pairSublines_reconstruct cs rest s2 e2 hs2e2 he2l hwfr
          (fun p hp => by
            have hpos : p.1 ≠ 0 := by
              have hlow := ChainWF_mem_lower hwfr p hp
              omega
            exact hsp p (List.mem_cons_of_mem _ (List.mem_cons_of_mem _ hp)) hpos)]
        rw [sliceL_append (by omega) (by omega), sliceL_append (by omega) (by omega)]
        have hcons : sliceL cs s2 cs.length = ' ' :: sliceL cs (s2 + 1) cs.length :=
          slice_cons hsp2 (by omega)
        rw [List.append_assoc, show ([' '] : List Char) ++ sliceL cs (s2 + 1) cs.length =
          sliceL cs s2 cs.length from by rw [hcons]; rfl]
        rw [sliceL_append (by omega) (by omega)]
        exact slice_zero_length cs

theorem mk_data (s : String) : String.mk s.data = s := by
  cases s
  rfl

theorem joinSep_space_flatten :
    ∀ (t : List (List Char)) (a : List Char),
      joinSep [' '] (a :: t) = a ++ (t.map (fun c => ' ' :: c)).flatten := by
  intro t
  induction t with
  | nil => intro a; simp [joinSep]
  | cons b u ih =>
    intro a
    rw [joinSep, ih b]
    simp [List.append_assoc]

theorem intercalate_go_eq :
    ∀ (l : List (List Char)) (acc : List Char),
      String.intercalate.go (String.mk acc) " " (l.map String.mk) =
        String.mk (acc ++ (l.map (fun c => ' ' :: c)).flatten) := by
  intro l
  induction l with
  | nil => intro acc; simp [String.intercalate.go]
  | cons a t ih =>
    intro acc
    rw [List.map_cons, String.intercalate.go]
    have happ : String.mk acc ++ " " ++ String.mk a = String.mk (acc ++ ' ' :: a) := by
      apply String.ext
      simp [String.data_append]
    rw [happ, ih (acc ++ ' ' :: a)]
    simp [List.append_assoc]

theorem intercalate_space_mk (l : List (List Char)) :
    String.intercalate " " (l.map String.mk) = String.mk (joinSep [' '] l) := by
  cases l with
  | nil => rfl
  | cons a t =>
    rw [List.map_cons, String.intercalate, intercalate_go_eq t a, joinSep_space_flatten]

theorem getD3_flatten {l : List (List Char)} (h : 3 ≤ l.length) :
    l.getD 0 [] ++ l.getD 1 [] ++ l.getD 2 [] = (l.take 3).flatten := by
  rcases l with _ | ⟨a, _ | ⟨b, _ | ⟨c, t⟩⟩⟩
  · simp at h
  · simp at h
  · simp at h
  · simp [List.getD]

/-- C4: for every newline-free line and maximum length at least 55 (so the
`{15,L-40}` quantifier of the split pattern is well-formed), the line-wrap
routine returns the line unwrapped when it is shorter than `L + 5`, and
when the whitespace-boundary split yields fewer than 4 parts; otherwise
the first subline is the concatenation of the first three split parts and
each subsequent subline is the next consecutive pair of parts with the
pair's leading separator character stripped. -/
theorem break_lines_cases (line : String) (L : Nat) (hL : 55 ≤ L)
    (hn : '\n' ∉ line.data) :
    (line.length < L + 5 → _break_lines line L = [line])
  ∧ (L + 5 ≤ line.length → (splitParts line.data (L - 40)).length < 4 →
      _break_lines line L = [line])
  ∧ (L + 5 ≤ line.length → 4 ≤ (splitParts line.data (L - 40)).length →
      _break_lines line L =
        String.mk ((splitParts line.data (L - 40)).take 3).flatten ::
          (pairSublines ((splitParts line.data (L - 40)).drop 3)).map String.mk) := by
  have hlen : line.length = line.data.length := rfl
  refine ⟨?_, ?_, ?_⟩
  · intro h
    rw [_break_lines, breakLinesL, if_pos (by omega)]
    simp [mk_data]
  · intro h1 h2
    rw [_break_lines, breakLinesL, if_neg (by omega)]
    dsimp only
    rw [if_pos h2]
    simp [mk_data]
  · intro h1 h4
    rw [_break_lines, breakLinesL, if_neg (by omega)]
    dsimp only
    rw [if_neg (by omega)]
    have hodd := splitParts_length_odd line.data (L - 40)
    rw [List.map_cons, sublinesLoop_eq_pair _ 3 (by omega),
      getD3_flatten (by omega)]

/-- C10: joining the sublines returned by the line-wrap routine with a
single space between consecutive sublines reconstructs the original line
exactly. -/
theorem break_lines_join_reconstructs (line : String) (L : Nat) (hL : 55 ≤ L)
    (hn : '\n' ∉ line.data) :
    String.intercalate " " (_break_lines line L) = line := by
  rw [_break_lines, intercalate_space_mk, breakLinesL_joinSep]

/-- C4 witness: a concrete wrapped line. -/
theorem break_lines_cases_witness :
    _break_lines
        "abcdefghablahblah here is a longer line with many words to wrap around the limit okay"
        55 =
      ["abcdefghablahblah here is a longer line with many words to",
        "wrap around the limit okay"] := by
  have h := (break_lines_cases
    "abcdefghablahblah here is a longer line with many words to wrap around the limit okay"
    55 (by decide) (by decide)).2.2 (by decide) (by decide)
  exact h.trans (by decide)

/-- C10 witness: rejoining the concrete wrapped line. -/
theorem break_lines_join_reconstructs_witness :
    String.intercalate " "
        (_break_lines
          "abcdefghablahblah here is a longer line with many words to wrap around the limit okay"
          55) =
      "abcdefghablahblah here is a longer line with many words to wrap around the limit okay" :=
  break_lines_join_reconstructs _ 55 (by decide) (by decide)

end SchemaPrinter
